import Mathlib

/-!
Verification of the `dgl.graphbolt` sampled-subgraph edge-exclusion engine
(`python/dgl/graphbolt/sampled_subgraph.py`).

The shallow embedding models tensors as `List Nat` (node/edge ids are
non-negative machine integers), dictionaries as association lists, and the
Python `assert` / `NotImplementedError` / `KeyError` failure modes as an
`Except` error type.  Edge-type keys of the form `"src:rel:dst"` are modelled
as already-parsed triples (`etype_str_to_tuple` becomes a projection).
-/

namespace DGLGraphbolt

/-- Compressed-sparse-column structure: `indptr` stores where each column
starts in the data array, `indices` the row ids of the non-zero entries
(class `CSCFormatBase` of `dgl.graphbolt.base`, used by the source). -/
structure CSCFormatBase where
  indptr : List Nat
  indices : List Nat
deriving DecidableEq

/-- An edge-type key `"src_type:rel_type:dst_type"`, modelled parsed. -/
structure EType where
  src_type : String
  rel_type : String
  dst_type : String
deriving DecidableEq

/-- Modelled from the spec: `etype_str_to_tuple` (defined in
`dgl.graphbolt.base`, not under `src/`) splits an edge-type string into the
`(src_type, rel_type, dst_type)` triple; on parsed keys it is projection. -/
def etype_str_to_tuple (e : EType) : String × String × String :=
  (e.src_type, e.rel_type, e.dst_type)

/-- First-match association-list lookup: Python `dict` access / `dict.get`. -/
def alist_get {κ α : Type} [DecidableEq κ] : List (κ × α) → κ → Option α
  | [], _ => none
  | (k, v) :: rest, q => if k = q then some v else alist_get rest q

/-- Homogeneous fields of a sampled subgraph (`SampledSubgraph` attributes
`sampled_csc`, `original_column_node_ids`, `original_row_node_ids`,
`original_edge_ids`, each `None` or a tensor). -/
structure SampledSubgraphHomo where
  sampled_csc : CSCFormatBase
  original_column_node_ids : Option (List Nat)
  original_row_node_ids : Option (List Nat)
  original_edge_ids : Option (List Nat)
deriving DecidableEq

/-- Heterogeneous fields of a sampled subgraph: per-edge-type CSC structures
and edge ids, per-node-type row/column id maps. -/
structure SampledSubgraphHetero where
  sampled_csc : List (EType × CSCFormatBase)
  original_column_node_ids : Option (List (String × List Nat))
  original_row_node_ids : Option (List (String × List Nat))
  original_edge_ids : Option (List (EType × List Nat))
deriving DecidableEq

/-- A sampled subgraph is a single structure or a per-relation mapping. -/
inductive SampledSubgraph where
  | homo (g : SampledSubgraphHomo)
  | hetero (g : SampledSubgraphHetero)
deriving DecidableEq

/-- A homogeneous edge set to exclude: either a pair of equal-length id
tensors, or a single two-column table (`torch.Tensor` of shape `N × 2`). -/
inductive HomoEdges where
  | pair (src dst : List Nat)
  | table (rows : List (Nat × Nat))
deriving DecidableEq

/-- The `edges` argument of `exclude_edges`: homogeneous or per-relation. -/
inductive EdgesToExclude where
  | homo (e : HomoEdges)
  | hetero (d : List (EType × HomoEdges))
deriving DecidableEq

/-- Failure modes of `exclude_edges`: the `assert`/`NotImplementedError` for
ids beyond int32 (`unsupportedRange`), the homogeneity `assert`
(`shapeMismatch`), and Python `KeyError` on dictionary access (`keyError`). -/
inductive ExcludeError where
  | unsupportedRange
  | shapeMismatch
  | keyError
deriving DecidableEq

/-- `torch.index_select(t, 0, idx)` / advanced indexing `t[idx]`: gather. -/
def index_select_list (t : List Nat) (idx : List Nat) : List Nat :=
  idx.map (fun i => t.getD i 0)

/-- Modelled from the spec: `dgl.graphbolt.base.isin` (not under `src/`):
elementwise membership mask, `True` where the element occurs in
`test_elements`. -/
def isin (elements test_elements : List Nat) : List Bool :=
  elements.map (fun v => test_elements.contains v)

/-- `torch.nonzero(mask, as_tuple=True)[0]`: ascending positions of `true`. -/
def nonzero (mask : List Bool) : List Nat :=
  (List.range mask.length).filter (fun i => mask.getD i false)

/-- The id of column `j` once substituted through an optional node-id map. -/
def col_id (node_ids : Option (List Nat)) (j : Nat) : Nat :=
  match node_ids with
  | some m => m.getD j 0
  | none => j

/-- Modelled from the spec: `dgl.graphbolt.base.expand_indptr` (not under
`src/`) expands `indptr` so each edge inherits the id of its owning column,
substituted through `node_ids` when present.  `j` is the index of the first
column of the remaining boundary list. -/
def expand_indptr (node_ids : Option (List Nat)) (j : Nat) : List Nat → List Nat
  | a :: b :: rest =>
      List.replicate (b - a) (col_id node_ids j) ++
        expand_indptr node_ids (j + 1) (b :: rest)
  | _ => []

/-- `_to_reverse_ids`: resolve the (row, column) endpoint ids of every edge
back to original-id space. -/
def to_reverse_ids (node_pair : CSCFormatBase)
    (original_row_node_ids original_column_node_ids : Option (List Nat)) :
    List Nat × List Nat :=
  let indices :=
    match original_row_node_ids with
    | some ids => index_select_list ids node_pair.indices
    | none => node_pair.indices
  let indptr := expand_indptr original_column_node_ids 0 node_pair.indptr
  (indices, indptr)

/-- The packed 64-bit key `src << 32 | dst` computed on int64 tensors. -/
def key64 (s d : Nat) : Nat :=
  ((s <<< 32) ||| d) % 2 ^ 64

/-- `_exclude_homo_edges`: indices of the edges to be kept, for an exclusion
set given as a pair of id tensors. -/
def exclude_homo_edges (edges : List Nat × List Nat)
    (edges_to_exclude : List Nat × List Nat)
    (assume_num_node_within_int32 : Bool) : Except ExcludeError (List Nat) :=
  if assume_num_node_within_int32 then
    let val := (edges.1.zip edges.2).map (fun p => key64 p.1 p.2)
    let val_to_exclude :=
      (edges_to_exclude.1.zip edges_to_exclude.2).map (fun p => key64 p.1 p.2)
    let mask := (isin val val_to_exclude).map (fun b => !b)
    Except.ok (nonzero mask)
  else
    Except.error ExcludeError.unsupportedRange

/-- `_exclude_homo_edges_2`: as `_exclude_homo_edges`, but the exclusion set
comes as a two-column table whose transpose gives the (src, dst) columns. -/
def exclude_homo_edges_2 (edges : List Nat × List Nat)
    (edges_to_exclude : List (Nat × Nat))
    (assume_num_node_within_int32 : Bool) : Except ExcludeError (List Nat) :=
  if assume_num_node_within_int32 then
    let val := (edges.1.zip edges.2).map (fun p => key64 p.1 p.2)
    let src_col := edges_to_exclude.map (fun r => r.1)
    let dst_col := edges_to_exclude.map (fun r => r.2)
    let val_to_exclude := (src_col.zip dst_col).map (fun p => key64 p.1 p.2)
    let mask := (isin val val_to_exclude).map (fun b => !b)
    Except.ok (nonzero mask)
  else
    Except.error ExcludeError.unsupportedRange

/-- `torch.searchsorted(sorted_seq, v)` (left side): leftmost insertion
point, i.e. the first position whose entry is `≥ v`. -/
def searchsorted_one (sorted_seq : List Nat) (v : Nat) : Nat :=
  sorted_seq.findIdx (fun x => v ≤ x)

/-- `torch.searchsorted` applied elementwise to a tensor of boundaries. -/
def searchsorted (sorted_seq : List Nat) (vals : List Nat) : List Nat :=
  vals.map (searchsorted_one sorted_seq)

/-- `_index_select` on a `CSCFormatBase`: gather `indices`, rebuild `indptr`
by `searchsorted`; a `None` index returns the input unchanged. -/
def index_select_csc (obj : CSCFormatBase) : Option (List Nat) → CSCFormatBase
  | none => obj
  | some idx =>
      { indptr := searchsorted idx obj.indptr
        indices := index_select_list obj.indices idx }

/-- `_index_select` on a plain id tensor (`obj[index]`). -/
def index_select_ids (obj : List Nat) : Option (List Nat) → List Nat
  | none => obj
  | some idx => index_select_list obj idx

/-- `_index_select` on a dictionary of CSC structures: every key of `obj`
looks up its retain index in `index` (Python raises `KeyError` if absent). -/
def index_select_csc_dict (index : List (EType × Option (List Nat))) :
    List (EType × CSCFormatBase) →
      Except ExcludeError (List (EType × CSCFormatBase))
  | [] => Except.ok []
  | (k, v) :: rest =>
      match alist_get index k with
      | none => Except.error ExcludeError.keyError
      | some i =>
          match index_select_csc_dict index rest with
          | Except.error err => Except.error err
          | Except.ok tail => Except.ok ((k, index_select_csc v i) :: tail)

/-- `_index_select` on a dictionary of edge-id tensors. -/
def index_select_ids_dict (index : List (EType × Option (List Nat))) :
    List (EType × List Nat) → Except ExcludeError (List (EType × List Nat))
  | [] => Except.ok []
  | (k, v) :: rest =>
      match alist_get index k with
      | none => Except.error ExcludeError.keyError
      | some i =>
          match index_select_ids_dict index rest with
          | Except.error err => Except.error err
          | Except.ok tail => Except.ok ((k, index_select_ids v i) :: tail)

/-- `_slice_subgraph` on a homogeneous subgraph: slice the CSC structure and
the edge ids, pass the row/column node-id maps through unchanged. -/
def slice_subgraph_homo (subgraph : SampledSubgraphHomo)
    (index : Option (List Nat)) : SampledSubgraphHomo :=
  { sampled_csc := index_select_csc subgraph.sampled_csc index
    original_column_node_ids := subgraph.original_column_node_ids
    original_row_node_ids := subgraph.original_row_node_ids
    original_edge_ids :=
      subgraph.original_edge_ids.map (fun ids => index_select_ids ids index) }

/-- `_index_select` applied to the optional edge-id dictionary. -/
def slice_eids (index : List (EType × Option (List Nat))) :
    Option (List (EType × List Nat)) →
      Except ExcludeError (Option (List (EType × List Nat)))
  | none => Except.ok none
  | some d => Except.map some (index_select_ids_dict index d)

/-- `_slice_subgraph` on a heterogeneous subgraph. -/
def slice_subgraph_hetero (subgraph : SampledSubgraphHetero)
    (index : List (EType × Option (List Nat))) :
    Except ExcludeError SampledSubgraphHetero :=
  match index_select_csc_dict index subgraph.sampled_csc with
  | Except.error err => Except.error err
  | Except.ok new_csc =>
      match slice_eids index subgraph.original_edge_ids with
      | Except.error err => Except.error err
      | Except.ok new_eids =>
          Except.ok
            { sampled_csc := new_csc
              original_column_node_ids := subgraph.original_column_node_ids
              original_row_node_ids := subgraph.original_row_node_ids
              original_edge_ids := new_eids }

/-- One iteration of the per-relation loop of `exclude_edges` (heterogeneous
branch): a relation absent from `edges` gets a `None` retain index, the
others are resolved through the per-node-type maps (Python `dict.get`,
absent node types meaning no compaction) and run through the engine. -/
def retain_entry (orow ocol : Option (List (String × List Nat)))
    (edges : List (EType × HomoEdges))
    (assume_num_node_within_int32 : Bool) (etype : EType)
    (pair : CSCFormatBase) : Except ExcludeError (Option (List Nat)) :=
  match alist_get edges etype with
  | none => Except.ok none
  | some e =>
      let original_row_node_ids :=
        orow.bind (fun d => alist_get d etype.src_type)
      let original_column_node_ids :=
        ocol.bind (fun d => alist_get d etype.dst_type)
      let reverse_edges :=
        to_reverse_ids pair original_row_node_ids original_column_node_ids
      match (match e with
             | HomoEdges.pair s d =>
                 exclude_homo_edges reverse_edges (s, d)
                   assume_num_node_within_int32
             | HomoEdges.table rows =>
                 exclude_homo_edges_2 reverse_edges rows
                   assume_num_node_within_int32) with
      | Except.error err => Except.error err
      | Except.ok i => Except.ok (some i)

/-- The per-relation retain-index loop of `exclude_edges` (heterogeneous
branch), in the order of `sampled_csc` items. -/
def hetero_retain_index (orow ocol : Option (List (String × List Nat)))
    (edges : List (EType × HomoEdges))
    (assume_num_node_within_int32 : Bool) :
    List (EType × CSCFormatBase) →
      Except ExcludeError (List (EType × Option (List Nat)))
  | [] => Except.ok []
  | (etype, pair) :: rest =>
      match retain_entry orow ocol edges assume_num_node_within_int32
        etype pair with
      | Except.error err => Except.error err
      | Except.ok ent =>
          match hetero_retain_index orow ocol edges
            assume_num_node_within_int32 rest with
          | Except.error err => Except.error err
          | Except.ok tail => Except.ok ((etype, ent) :: tail)

/-- `SampledSubgraph.exclude_edges`: the sole public entry point.  The two
leading `assert`s become the two leading error checks; then the homogeneous
or heterogeneous path resolves ids, computes retain indices and slices. -/
def exclude_edges (g : SampledSubgraph) (edges : EdgesToExclude)
    (assume_num_node_within_int32 : Bool) :
    Except ExcludeError SampledSubgraph :=
  if !assume_num_node_within_int32 then
    Except.error ExcludeError.unsupportedRange
  else
    match g, edges with
    | SampledSubgraph.homo sg, EdgesToExclude.homo e =>
        let reverse_edges := to_reverse_ids sg.sampled_csc
          sg.original_row_node_ids sg.original_column_node_ids
        let r :=
          match e with
          | HomoEdges.pair s d =>
              exclude_homo_edges reverse_edges (s, d)
                assume_num_node_within_int32
          | HomoEdges.table rows =>
              exclude_homo_edges_2 reverse_edges rows
                assume_num_node_within_int32
        match r with
        | Except.error err => Except.error err
        | Except.ok idx =>
            Except.ok (SampledSubgraph.homo (slice_subgraph_homo sg (some idx)))
    | SampledSubgraph.hetero sg, EdgesToExclude.hetero ed =>
        match hetero_retain_index sg.original_row_node_ids
          sg.original_column_node_ids ed assume_num_node_within_int32
          sg.sampled_csc with
        | Except.error err => Except.error err
        | Except.ok idx =>
            match slice_subgraph_hetero sg idx with
            | Except.error err => Except.error err
            | Except.ok r => Except.ok (SampledSubgraph.hetero r)
    | _, _ => Except.error ExcludeError.shapeMismatch

/-- Validity of a CSC structure (§3 of the data model): `indptr` starts at
`0`, ends at `length indices`, and is non-decreasing. -/
def CSCFormatBase.valid (c : CSCFormatBase) : Prop :=
  c.indptr.head? = some 0 ∧
  c.indptr.getLast? = some c.indices.length ∧
  List.Sorted (· ≤ ·) c.indptr

instance (c : CSCFormatBase) : Decidable c.valid := by
  unfold CSCFormatBase.valid
  infer_instance

/-- Well-formedness of a homogeneous subgraph: valid CSC and an edge-id
tensor (when present) aligned 1:1 with `indices`. -/
def SampledSubgraphHomo.valid (g : SampledSubgraphHomo) : Prop :=
  g.sampled_csc.valid ∧
  (match g.original_edge_ids with
   | some ids => ids.length = g.sampled_csc.indices.length
   | none => True)

instance (g : SampledSubgraphHomo) : Decidable g.valid := by
  unfold SampledSubgraphHomo.valid
  cases g.original_edge_ids <;> exact inferInstance

/-- The packed keys of the sampled edges of a homogeneous subgraph, in edge
order, exactly as the engine computes them. -/
def edge_keys (g : SampledSubgraphHomo) : List Nat :=
  let rev := to_reverse_ids g.sampled_csc g.original_row_node_ids
    g.original_column_node_ids
  (rev.1.zip rev.2).map (fun p => key64 p.1 p.2)

/-- Whether a subgraph is homogeneous (a single structure). -/
def is_homo_subgraph : SampledSubgraph → Bool
  | SampledSubgraph.homo _ => true
  | SampledSubgraph.hetero _ => false

/-- Whether an exclusion edge set is homogeneous. -/
def is_homo_edges : EdgesToExclude → Bool
  | EdgesToExclude.homo _ => true
  | EdgesToExclude.hetero _ => false

/-! ### Helper lemmas -/

theorem or_two_pow_eq_add : ∀ (k s d : Nat), d < 2 ^ k →
    (s * 2 ^ k) ||| d = s * 2 ^ k + d := by
  intro k
  induction k with
  | zero =>
      intro s d hd
      interval_cases d
      simp
  | succ k ih =>
      intro s d hd
      have hd2 : d.div2 < 2 ^ k := by
        rw [Nat.div2_val]
        rw [pow_succ] at hd
        omega
      have h1 : s * 2 ^ (k + 1) = Nat.bit false (s * 2 ^ k) := by
        simp [Nat.bit, pow_succ]
        ring
      conv_lhs => rw [h1, ← Nat.bit_decomp d]
      rw [Nat.lor_bit]
      rw [ih s d.div2 hd2]
      rw [Nat.bit_val]
      simp only [Bool.false_or]
      have h2 := Nat.bit_decomp d
      rw [Nat.bit_val] at h2
      rw [pow_succ, ← Nat.mul_assoc]
      omega

theorem key64_eq_of_lt {s d : Nat} (hs : s < 2 ^ 32) (hd : d < 2 ^ 32) :
    key64 s d = s * 2 ^ 32 + d := by
  unfold key64
  rw [Nat.shiftLeft_eq, or_two_pow_eq_add 32 s d hd]
  apply Nat.mod_eq_of_lt
  calc s * 2 ^ 32 + d < (s + 1) * 2 ^ 32 := by omega
    _ ≤ 2 ^ 32 * 2 ^ 32 := by
        apply Nat.mul_le_mul_right
        omega
    _ = 2 ^ 64 := by norm_num

theorem key64_inj {s1 d1 s2 d2 : Nat} (hs1 : s1 < 2 ^ 32) (hd1 : d1 < 2 ^ 32)
    (hs2 : s2 < 2 ^ 32) (hd2 : d2 < 2 ^ 32)
    (h : key64 s1 d1 = key64 s2 d2) : s1 = s2 ∧ d1 = d2 := by
  rw [key64_eq_of_lt hs1 hd1, key64_eq_of_lt hs2 hd2] at h
  omega

theorem exclude_homo_edges_true (edges edges_to_exclude : List Nat × List Nat) :
    exclude_homo_edges edges edges_to_exclude true =
      Except.ok (nonzero
        (((isin ((edges.1.zip edges.2).map (fun p => key64 p.1 p.2))
          ((edges_to_exclude.1.zip edges_to_exclude.2).map
            (fun p => key64 p.1 p.2)))).map (fun b => !b))) := rfl

theorem except_isOk_exists {eps alpha : Type} {r : Except eps alpha}
    (h : r.isOk = true) : ∃ a, r = Except.ok a := by
  cases r with
  | error e => exact absurd h (by simp [Except.isOk, Except.toBool])
  | ok a => exact ⟨a, rfl⟩

theorem retain_entry_true_isOk
    (orow ocol : Option (List (String × List Nat)))
    (ed : List (EType × HomoEdges)) (etype : EType) (pair : CSCFormatBase) :
    (retain_entry orow ocol ed true etype pair).isOk = true := by
  unfold retain_entry
  cases alist_get ed etype with
  | none => rfl
  | some e =>
      cases e with
      | pair s d => rfl
      | table rows => rfl

theorem hetero_retain_index_true_isOk
    (orow ocol : Option (List (String × List Nat)))
    (ed : List (EType × HomoEdges)) :
    ∀ l : List (EType × CSCFormatBase),
      (hetero_retain_index orow ocol ed true l).isOk = true := by
  intro l
  induction l with
  | nil => rfl
  | cons hd tl ih =>
      obtain ⟨etype, pair⟩ := hd
      obtain ⟨ent, hent⟩ := except_isOk_exists
        (retain_entry_true_isOk orow ocol ed etype pair)
      obtain ⟨out, hout⟩ := except_isOk_exists ih
      unfold hetero_retain_index
      rw [hent, hout]
      rfl

theorem hetero_retain_index_true_ok
    (orow ocol : Option (List (String × List Nat)))
    (ed : List (EType × HomoEdges))
    (l : List (EType × CSCFormatBase)) :
    ∃ out, hetero_retain_index orow ocol ed true l = Except.ok out :=
  except_isOk_exists (hetero_retain_index_true_isOk orow ocol ed l)

theorem index_select_csc_dict_cases
    (index : List (EType × Option (List Nat))) :
    ∀ l : List (EType × CSCFormatBase),
      (∃ out, index_select_csc_dict index l = Except.ok out) ∨
        index_select_csc_dict index l = Except.error ExcludeError.keyError := by
  intro l
  induction l with
  | nil => exact Or.inl ⟨[], rfl⟩
  | cons hd tl ih =>
      obtain ⟨k, v⟩ := hd
      unfold index_select_csc_dict
      cases halist : alist_get index k with
      | none => exact Or.inr rfl
      | some i =>
          rcases ih with ⟨out, hout⟩ | herr
          · exact Or.inl ⟨(k, index_select_csc v i) :: out, by rw [hout]⟩
          · exact Or.inr (by rw [herr])

theorem index_select_ids_dict_cases
    (index : List (EType × Option (List Nat))) :
    ∀ l : List (EType × List Nat),
      (∃ out, index_select_ids_dict index l = Except.ok out) ∨
        index_select_ids_dict index l = Except.error ExcludeError.keyError := by
  intro l
  induction l with
  | nil => exact Or.inl ⟨[], rfl⟩
  | cons hd tl ih =>
      obtain ⟨k, v⟩ := hd
      unfold index_select_ids_dict
      cases halist : alist_get index k with
      | none => exact Or.inr rfl
      | some i =>
          rcases ih with ⟨out, hout⟩ | herr
          · exact Or.inl ⟨(k, index_select_ids v i) :: out, by rw [hout]⟩
          · exact Or.inr (by rw [herr])

theorem slice_eids_cases (index : List (EType × Option (List Nat)))
    (oeids : Option (List (EType × List Nat))) :
    (∃ out, slice_eids index oeids = Except.ok out) ∨
      slice_eids index oeids = Except.error ExcludeError.keyError := by
  cases oeids with
  | none => exact Or.inl ⟨none, rfl⟩
  | some d =>
      rcases index_select_ids_dict_cases index d with ⟨out, hout⟩ | herr
      · refine Or.inl ⟨some out, ?_⟩
        show Except.map some (index_select_ids_dict index d) =
          Except.ok (some out)
        rw [hout]
        rfl
      · refine Or.inr ?_
        show Except.map some (index_select_ids_dict index d) =
          Except.error ExcludeError.keyError
        rw [herr]
        rfl

theorem slice_subgraph_hetero_cases (g : SampledSubgraphHetero)
    (index : List (EType × Option (List Nat))) :
    (∃ r, slice_subgraph_hetero g index = Except.ok r) ∨
      slice_subgraph_hetero g index = Except.error ExcludeError.keyError := by
  rcases index_select_csc_dict_cases index g.sampled_csc with ⟨csc, hcsc⟩ | herr
  · rcases slice_eids_cases index g.original_edge_ids with ⟨eids, heids⟩ | herr2
    · refine Or.inl ⟨⟨csc, g.original_column_node_ids,
        g.original_row_node_ids, eids⟩, ?_⟩
      unfold slice_subgraph_hetero
      rw [hcsc, heids]
    · refine Or.inr ?_
      unfold slice_subgraph_hetero
      rw [hcsc, herr2]
  · refine Or.inr ?_
    unfold slice_subgraph_hetero
    rw [herr]

theorem exclude_edges_homo_true_ok (sg : SampledSubgraphHomo)
    (e : HomoEdges) :
    ∃ r, exclude_edges (SampledSubgraph.homo sg) (EdgesToExclude.homo e) true =
      Except.ok (SampledSubgraph.homo r) := by
  cases e with
  | pair s d => exact ⟨_, rfl⟩
  | table rows => exact ⟨_, rfl⟩

theorem exclude_edges_hetero_true_cases (sg : SampledSubgraphHetero)
    (ed : List (EType × HomoEdges)) :
    (∃ r, exclude_edges (SampledSubgraph.hetero sg) (EdgesToExclude.hetero ed)
        true = Except.ok (SampledSubgraph.hetero r)) ∨
      exclude_edges (SampledSubgraph.hetero sg) (EdgesToExclude.hetero ed)
        true = Except.error ExcludeError.keyError := by
  have hunfold : exclude_edges (SampledSubgraph.hetero sg)
      (EdgesToExclude.hetero ed) true =
      match hetero_retain_index sg.original_row_node_ids
        sg.original_column_node_ids ed true sg.sampled_csc with
      | Except.error err => Except.error err
      | Except.ok idx =>
          match slice_subgraph_hetero sg idx with
          | Except.error err => Except.error err
          | Except.ok r => Except.ok (SampledSubgraph.hetero r) := rfl
  obtain ⟨idx, hidx⟩ := hetero_retain_index_true_ok sg.original_row_node_ids
    sg.original_column_node_ids ed sg.sampled_csc
  have h2 : exclude_edges (SampledSubgraph.hetero sg)
      (EdgesToExclude.hetero ed) true =
      match slice_subgraph_hetero sg idx with
      | Except.error err => Except.error err
      | Except.ok r => Except.ok (SampledSubgraph.hetero r) := by
    rw [hunfold, hidx]
  rw [h2]
  rcases slice_subgraph_hetero_cases sg idx with ⟨r, hr⟩ | herr
  · exact Or.inl ⟨r, by rw [hr]⟩
  · exact Or.inr (by rw [herr])

/-! ### Claim theorems (error handling) -/

/-- C7: `exclude_edges` fails with the explicit unsupported-range error
whenever `assume_num_node_within_int32` is false, for every subgraph and
exclusion set, before producing any sliced output; with the flag true that
error is never raised (the wide-range path never runs). -/
theorem exclude_edges_unsupported_range_gate (g : SampledSubgraph)
    (e : EdgesToExclude) :
    exclude_edges g e false = Except.error ExcludeError.unsupportedRange ∧
    exclude_edges g e true ≠ Except.error ExcludeError.unsupportedRange := by
  constructor
  · rfl
  · cases g with
    | homo sg =>
        cases e with
        | homo eh =>
            obtain ⟨r, hr⟩ := exclude_edges_homo_true_ok sg eh
            simp [hr]
        | hetero ed => simp [exclude_edges]
    | hetero sg =>
        cases e with
        | homo eh => simp [exclude_edges]
        | hetero ed =>
            rcases exclude_edges_hetero_true_cases sg ed with ⟨r, hr⟩ | herr
            · simp [hr]
            · simp [herr]

/-- C8: `exclude_edges` raises the shape-mismatch error exactly when the
homogeneity of the subgraph and of the exclusion set disagree, and never
raises it when they agree. -/
theorem exclude_edges_homogeneity_gate (g : SampledSubgraph)
    (e : EdgesToExclude) :
    (is_homo_subgraph g ≠ is_homo_edges e →
      exclude_edges g e true = Except.error ExcludeError.shapeMismatch) ∧
    (is_homo_subgraph g = is_homo_edges e →
      exclude_edges g e true ≠ Except.error ExcludeError.shapeMismatch) := by
  constructor
  · intro hne
    cases g <;> cases e <;> first
      | rfl
      | simp [is_homo_subgraph, is_homo_edges] at hne
  · intro heq
    cases g with
    | homo sg =>
        cases e with
        | homo eh =>
            obtain ⟨r, hr⟩ := exclude_edges_homo_true_ok sg eh
            simp [hr]
        | hetero ed => simp [is_homo_subgraph, is_homo_edges] at heq
    | hetero sg =>
        cases e with
        | homo eh => simp [is_homo_subgraph, is_homo_edges] at heq
        | hetero ed =>
            rcases exclude_edges_hetero_true_cases sg ed with ⟨r, hr⟩ | herr
            · simp [hr]
            · simp [herr]

/-- C8 witness: a homogeneous subgraph with a heterogeneous exclusion set is
rejected with the shape-mismatch error, and the matching homogeneous pair is
not. -/
theorem exclude_edges_homogeneity_gate_witness :
    exclude_edges
        (SampledSubgraph.homo
          { sampled_csc := { indptr := [0, 1], indices := [0] }
            original_column_node_ids := none
            original_row_node_ids := none
            original_edge_ids := none })
        (EdgesToExclude.hetero []) true =
      Except.error ExcludeError.shapeMismatch ∧
    exclude_edges
        (SampledSubgraph.homo
          { sampled_csc := { indptr := [0, 1], indices := [0] }
            original_column_node_ids := none
            original_row_node_ids := none
            original_edge_ids := none })
        (EdgesToExclude.homo (HomoEdges.pair [] [])) true ≠
      Except.error ExcludeError.shapeMismatch :=
  ⟨(exclude_edges_homogeneity_gate _ _).1 (by decide),
   (exclude_edges_homogeneity_gate _ _).2 (by decide)⟩

/-- C10: with `assume_num_node_within_int32 = true` the engine never checks
id magnitudes: the packed key `(s << 32) | d` collides for `d = 2^32`, so
the sampled edge `(1, 0)`, which is not in the exclusion set `{(0, 2^32)}`,
is silently removed and no error is raised. -/
theorem packed_key_collision_silently_drops_edge :
    exclude_edges
        (SampledSubgraph.homo
          { sampled_csc := { indptr := [0, 1], indices := [1] }
            original_column_node_ids := none
            original_row_node_ids := none
            original_edge_ids := none })
        (EdgesToExclude.homo (HomoEdges.pair [0] [2 ^ 32])) true =
      Except.ok (SampledSubgraph.homo
        { sampled_csc := { indptr := [0, 0], indices := [] }
          original_column_node_ids := none
          original_row_node_ids := none
          original_edge_ids := none }) ∧
    ((1 : Nat), (0 : Nat)) ∉ [((0 : Nat), 2 ^ 32)] ∧
    key64 1 0 = key64 0 (2 ^ 32) ∧ ((1 : Nat), (0 : Nat)) ≠ (0, 2 ^ 32) := by
  refine ⟨rfl, ?_, rfl, ?_⟩
  · decide
  · decide

theorem findIdx_le_eq_countP_lt :
    ∀ (l : List Nat), l.Sorted (· ≤ ·) → ∀ v : Nat,
      l.findIdx (fun x => v ≤ x) = l.countP (fun x => x < v) := by
  intro l
  induction l with
  | nil => intro _ v; rfl
  | cons a t ih =>
      intro hs v
      rw [List.sorted_cons] at hs
      obtain ⟨hall, ht⟩ := hs
      rw [List.findIdx_cons, List.countP_cons]
      by_cases hva : v ≤ a
      · have h0 : t.countP (fun x => decide (x < v)) = 0 := by
          rw [List.countP_eq_zero]
          intro x hx
          have := hall x hx
          simp only [decide_eq_true_eq]
          omega
        have hav : ¬ (a < v) := by omega
        simp [hva, hav, h0]
      · have hav : a < v := by omega
        simp [hva, hav, ih ht v]

theorem countP_lt_range : ∀ (n b : Nat), b ≤ n →
    (List.range n).countP (fun x => x < b) = b := by
  intro n
  induction n with
  | zero =>
      intro b hb
      interval_cases b
      rfl
  | succ n ih =>
      intro b hb
      rw [List.range_succ, List.countP_append]
      by_cases hbn : b ≤ n
      · have hnb : ¬ (n < b) := by omega
        simp [ih b hbn, hnb]
      · have hb1 : b = n + 1 := by omega
        subst hb1
        have h1 : (List.range n).countP (fun x => x < n + 1) = n := by
          have h2 : ∀ a ∈ List.range n, decide (a < n + 1) = true := by
            intro a ha
            rw [List.mem_range] at ha
            simp only [decide_eq_true_eq]
            omega
          rw [List.countP_eq_length.mpr h2, List.length_range]
        simp [h1]

theorem range_sorted_le (n : Nat) : (List.range n).Sorted (· ≤ ·) :=
  (List.pairwise_lt_range n).imp (fun h => Nat.le_of_lt h)

theorem searchsorted_one_sorted (l : List Nat) (hs : l.Sorted (· ≤ ·))
    (v : Nat) : searchsorted_one l v = l.countP (fun x => x < v) :=
  findIdx_le_eq_countP_lt l hs v

theorem searchsorted_one_range {n b : Nat} (h : b ≤ n) :
    searchsorted_one (List.range n) b = b := by
  rw [searchsorted_one_sorted _ (range_sorted_le n), countP_lt_range n b h]

theorem mem_nonzero {mask : List Bool} {i : Nat} :
    i ∈ nonzero mask ↔ i < mask.length ∧ mask.getD i false = true := by
  unfold nonzero
  rw [List.mem_filter, List.mem_range]

theorem nonzero_sorted (mask : List Bool) : (nonzero mask).Sorted (· < ·) :=
  (List.pairwise_lt_range mask.length).filter _

theorem nonzero_all_true {mask : List Bool}
    (h : ∀ i, i < mask.length → mask.getD i false = true) :
    nonzero mask = List.range mask.length := by
  unfold nonzero
  rw [List.filter_eq_self]
  intro a ha
  exact h a (List.mem_range.mp ha)

theorem index_select_list_range (l : List Nat) :
    index_select_list l (List.range l.length) = l := by
  unfold index_select_list
  apply List.ext_getElem
  · simp
  · intro i h1 h2
    rw [List.getElem_map, List.getElem_range,
      List.getD_eq_getElem?_getD, List.getElem?_eq_getElem h2]
    rfl

theorem mask_length (val vex : List Nat) :
    ((isin val vex).map (fun b => !b)).length = val.length := by
  simp [isin]

theorem mask_getD (val vex : List Nat) (i : Nat) (h : i < val.length) :
    ((isin val vex).map (fun b => !b)).getD i false =
      !(vex.contains (val.getD i 0)) := by
  unfold isin
  rw [List.getD_eq_getElem?_getD, List.getElem?_map, List.getElem?_map,
    List.getElem?_eq_getElem h, List.getD_eq_getElem?_getD,
    List.getElem?_eq_getElem h]
  rfl

theorem contains_iff_mem_nat (l : List Nat) (a : Nat) :
    l.contains a = true ↔ a ∈ l := by
  simp [List.contains, List.elem_iff]

theorem contains_key_iff_mem_zip {es ed : List Nat} {s0 d0 : Nat}
    (hesrc : ∀ x ∈ es, x < 2 ^ 32) (hedst : ∀ x ∈ ed, x < 2 ^ 32)
    (hs0 : s0 < 2 ^ 32) (hd0 : d0 < 2 ^ 32) :
    ((es.zip ed).map (fun p => key64 p.1 p.2)).contains (key64 s0 d0) = true ↔
      (s0, d0) ∈ es.zip ed := by
  rw [contains_iff_mem_nat, List.mem_map]
  constructor
  · rintro ⟨⟨p1, p2⟩, hp, hkey⟩
    obtain ⟨h1, h2⟩ := List.of_mem_zip hp
    obtain ⟨hs, hd⟩ := key64_inj (hesrc _ h1) (hedst _ h2) hs0 hd0 hkey
    rw [← hs, ← hd]
    exact hp
  · intro h
    exact ⟨(s0, d0), h, rfl⟩

theorem sorted_mem_le_getLast :
    ∀ (l : List Nat) (L : Nat), l.Sorted (· ≤ ·) → l.getLast? = some L →
      ∀ x ∈ l, x ≤ L := by
  intro l
  induction l with
  | nil => simp
  | cons a t ih =>
      intro L hs hlast x hx
      rw [List.sorted_cons] at hs
      cases t with
      | nil =>
          simp only [List.getLast?_singleton, Option.some.injEq] at hlast
          simp only [List.mem_singleton] at hx
          omega
      | cons b t2 =>
          rw [List.getLast?_cons_cons] at hlast
          have hbL : b ≤ L := ih L hs.2 hlast b (by simp)
          rcases List.mem_cons.mp hx with rfl | hx2
          · have := hs.1 b (by simp)
            omega
          · exact ih L hs.2 hlast x hx2

theorem expand_indptr_length (node_ids : Option (List Nat)) :
    ∀ (l : List Nat) (j a : Nat), (a :: l).Sorted (· ≤ ·) →
      (expand_indptr node_ids j (a :: l)).length = (a :: l).getLastD 0 - a := by
  intro l
  induction l with
  | nil =>
      intro j a _
      simp [expand_indptr, List.getLastD_cons]
  | cons b t ih =>
      intro j a hs
      rw [List.sorted_cons] at hs
      have hab : a ≤ b := hs.1 b (by simp)
      have hbl : b ≤ (b :: t).getLastD 0 := by
        cases ht : (b :: t).getLast? with
        | none => simp at ht
        | some L =>
            have h1 := sorted_mem_le_getLast (b :: t) L hs.2 ht b (by simp)
            rw [List.getLastD_eq_getLast?, ht]
            exact h1
      unfold expand_indptr
      rw [List.length_append, List.length_replicate, ih (j + 1) b hs.2]
      have hc1 := List.getLastD_cons 0 a (b :: t)
      have hc2 := List.getLastD_cons a b t
      have hc3 := List.getLastD_cons 0 b t
      omega

theorem sorted_head_le_getD :
    ∀ (l : List Nat) (a j : Nat), (a :: l).Sorted (· ≤ ·) →
      j < (a :: l).length → a ≤ (a :: l).getD j 0 := by
  intro l
  induction l with
  | nil =>
      intro a j _ hj
      simp only [List.length_cons, List.length_nil] at hj
      interval_cases j
      simp
  | cons b t ih =>
      intro a j hs hj
      cases j with
      | zero => simp
      | succ j2 =>
          rw [List.sorted_cons] at hs
          have hab : a ≤ b := hs.1 b (by simp)
          have h2 := ih b j2 hs.2 (by simpa using hj)
          rw [List.getD_cons_succ]
          omega

theorem expand_indptr_getD (node_ids : Option (List Nat)) :
    ∀ (l : List Nat) (a j0 j i : Nat), (a :: l).Sorted (· ≤ ·) →
      j + 1 < (a :: l).length →
      (a :: l).getD j 0 ≤ i → i < (a :: l).getD (j + 1) 0 →
      (expand_indptr node_ids j0 (a :: l)).getD (i - a) 0 =
        col_id node_ids (j0 + j) := by
  intro l
  induction l with
  | nil =>
      intro a j0 j i _ hj _ _
      simp at hj
  | cons b t ih =>
      intro a j0 j i hs hj hlo hhi
      unfold expand_indptr
      cases j with
      | zero =>
          have hlo2 : a ≤ i := by simpa using hlo
          have hhi2 : i < b := by
            have hred : (a :: b :: t).getD (0 + 1) 0 = b := rfl
            omega
          rw [List.getD_append _ _ _ _ (by rw [List.length_replicate]; omega)]
          rw [List.getD_eq_getElem?_getD, List.getElem?_replicate,
            if_pos (by omega)]
          rfl
      | succ j2 =>
          have hs2 := hs
          rw [List.sorted_cons] at hs2
          have hlo2 : (b :: t).getD j2 0 ≤ i := by
            rw [List.getD_cons_succ] at hlo
            exact hlo
          have hhi2 : i < (b :: t).getD (j2 + 1) 0 := by
            rw [List.getD_cons_succ] at hhi
            exact hhi
          have hj2 : j2 + 1 < (b :: t).length := by simpa using hj
          have hhead : b ≤ (b :: t).getD j2 0 :=
            sorted_head_le_getD t b j2 hs2.2 (by omega)
          have hb_le_i : b ≤ i := le_trans hhead hlo2
          have hab : a ≤ b := hs2.1 b (by simp)
          rw [List.getD_append_right _ _ _ _
            (by rw [List.length_replicate]; omega)]
          rw [List.length_replicate]
          have harith : i - a - (b - a) = i - b := by omega
          rw [harith, ih b (j0 + 1) j2 i hs2.2 hj2 hlo2 hhi2]
          congr 1
          omega

theorem index_select_list_getD (t idx : List Nat) (i : Nat)
    (h : i < idx.length) :
    (index_select_list t idx).getD i 0 = t.getD (idx.getD i 0) 0 := by
  unfold index_select_list
  rw [List.getD_eq_getElem?_getD, List.getElem?_map,
    List.getElem?_eq_getElem h, List.getD_eq_getElem?_getD idx,
    List.getElem?_eq_getElem h]
  rfl

theorem index_select_list_length (t idx : List Nat) :
    (index_select_list t idx).length = idx.length := by
  simp [index_select_list]

theorem getD_mem_of_lt (l : List Nat) (i : Nat) (h : i < l.length) :
    l.getD i 0 ∈ l := by
  rw [List.getD_eq_getElem?_getD, List.getElem?_eq_getElem h]
  exact List.getElem_mem h

theorem zip_key_getD (src dst : List Nat) (i : Nat) (h1 : i < src.length)
    (h2 : i < dst.length) :
    ((src.zip dst).map (fun p => key64 p.1 p.2)).getD i 0 =
      key64 (src.getD i 0) (dst.getD i 0) := by
  have hz : i < (src.zip dst).length := by
    rw [List.length_zip]
    omega
  rw [List.getD_eq_getElem?_getD, List.getElem?_map,
    List.getElem?_eq_getElem hz]
  simp [List.getElem_zip, List.getD_eq_getElem?_getD,
    List.getElem?_eq_getElem h1, List.getElem?_eq_getElem h2]

/-- C1: on resolved original-id pairs within the documented 32-bit range,
the exclusion engine returns exactly the ascending sequence of positions
whose exact (src, dst) pair is not in the exclusion set: matched pairs are
absent, all other positions are retained in original relative order, and a
match on a single endpoint does not exclude. -/
theorem exclusion_engine_exact (src dst ex_src ex_dst : List Nat)
    (hlen : src.length = dst.length)
    (hsrc : ∀ x ∈ src, x < 2 ^ 32) (hdst : ∀ x ∈ dst, x < 2 ^ 32)
    (hex_src : ∀ x ∈ ex_src, x < 2 ^ 32)
    (hex_dst : ∀ x ∈ ex_dst, x < 2 ^ 32) :
    ∃ keep, exclude_homo_edges (src, dst) (ex_src, ex_dst) true =
        Except.ok keep ∧
      keep.Sorted (· < ·) ∧
      ∀ i, i ∈ keep ↔
        i < src.length ∧
          (src.getD i 0, dst.getD i 0) ∉ ex_src.zip ex_dst := by
  refine ⟨_, rfl, nonzero_sorted _, ?_⟩
  intro i
  rw [mem_nonzero, mask_length]
  have hvlen : ((src.zip dst).map (fun p => key64 p.1 p.2)).length =
      src.length := by
    rw [List.length_map, List.length_zip]
    omega
  rw [hvlen]
  constructor
  · rintro ⟨hi, hmask⟩
    refine ⟨hi, ?_⟩
    rw [mask_getD _ _ _ (by
        show i < ((src.zip dst).map (fun p => key64 p.1 p.2)).length
        omega),
      zip_key_getD src dst i hi (by omega)] at hmask
    intro hpair
    have hcont := (contains_key_iff_mem_zip hex_src hex_dst
      (hsrc _ (getD_mem_of_lt src i hi))
      (hdst _ (getD_mem_of_lt dst i (by omega)))).mpr hpair
    rw [hcont] at hmask
    simp at hmask
  · rintro ⟨hi, hnot⟩
    refine ⟨hi, ?_⟩
    rw [mask_getD _ _ _ (by
        show i < ((src.zip dst).map (fun p => key64 p.1 p.2)).length
        omega),
      zip_key_getD src dst i hi (by omega)]
    cases hcont : ((ex_src.zip ex_dst).map
        (fun p => key64 p.1 p.2)).contains
        (key64 (src.getD i 0) (dst.getD i 0)) with
    | false => rfl
    | true =>
        exact absurd ((contains_key_iff_mem_zip hex_src hex_dst
          (hsrc _ (getD_mem_of_lt src i hi))
          (hdst _ (getD_mem_of_lt dst i (by omega)))).mp hcont) hnot

/-- C1 witness: a concrete run with one excluded and one kept edge. -/
theorem exclusion_engine_exact_witness :
    ∃ keep, exclude_homo_edges ([5, 6], [1, 2]) ([6], [2]) true =
        Except.ok keep ∧
      keep.Sorted (· < ·) ∧
      ∀ i, i ∈ keep ↔
        i < [5, 6].length ∧
          ([5, 6].getD i 0, [1, 2].getD i 0) ∉ [6].zip [2] :=
  exclusion_engine_exact [5, 6] [1, 2] [6] [2] (by decide)
    (by decide) (by decide) (by decide) (by decide)

/-- C3: for an ascending retain-index sequence the slicer gathers `indices`
at the retain indices, rebuilds every `indptr` boundary as the number of
retain entries strictly below the old boundary, gathers the edge-id array
(when present) at the same indices, and a `None` retain index returns the
subgraph unchanged. -/
theorem slicer_functional_correct (g : SampledSubgraphHomo) (idx : List Nat)
    (hsort : idx.Sorted (· ≤ ·)) :
    (slice_subgraph_homo g (some idx)).sampled_csc.indices =
        idx.map (fun i => g.sampled_csc.indices.getD i 0) ∧
    (slice_subgraph_homo g (some idx)).sampled_csc.indptr =
        g.sampled_csc.indptr.map (fun b => idx.countP (fun x => x < b)) ∧
    (slice_subgraph_homo g (some idx)).original_edge_ids =
        g.original_edge_ids.map (fun ids => idx.map (fun i => ids.getD i 0)) ∧
    slice_subgraph_homo g none = g := by
  refine ⟨rfl, ?_, rfl, ?_⟩
  · show searchsorted idx g.sampled_csc.indptr = _
    unfold searchsorted
    exact List.map_congr_left
      (fun b _ => searchsorted_one_sorted idx hsort b)
  · obtain ⟨csc, ocol, orow, oeids⟩ := g
    cases oeids <;> rfl

/-- C3 witness: a concrete slice. -/
theorem slicer_functional_correct_witness :
    (slice_subgraph_homo
        { sampled_csc := { indptr := [0, 1, 3], indices := [4, 5, 6] }
          original_column_node_ids := none
          original_row_node_ids := none
          original_edge_ids := some [7, 8, 9] } (some [0, 2])).sampled_csc.indices =
        [0, 2].map (fun i => [4, 5, 6].getD i 0) ∧
    (slice_subgraph_homo
        { sampled_csc := { indptr := [0, 1, 3], indices := [4, 5, 6] }
          original_column_node_ids := none
          original_row_node_ids := none
          original_edge_ids := some [7, 8, 9] } (some [0, 2])).sampled_csc.indptr =
        [0, 1, 3].map (fun b => [0, 2].countP (fun x => x < b)) ∧
    (slice_subgraph_homo
        { sampled_csc := { indptr := [0, 1, 3], indices := [4, 5, 6] }
          original_column_node_ids := none
          original_row_node_ids := none
          original_edge_ids := some [7, 8, 9] } (some [0, 2])).original_edge_ids =
        (some [7, 8, 9]).map (fun ids => [0, 2].map (fun i => ids.getD i 0)) ∧
    slice_subgraph_homo
        { sampled_csc := { indptr := [0, 1, 3], indices := [4, 5, 6] }
          original_column_node_ids := none
          original_row_node_ids := none
          original_edge_ids := some [7, 8, 9] } none =
      { sampled_csc := { indptr := [0, 1, 3], indices := [4, 5, 6] }
        original_column_node_ids := none
        original_row_node_ids := none
        original_edge_ids := some [7, 8, 9] } := by
  have h := slicer_functional_correct
    { sampled_csc := { indptr := [0, 1, 3], indices := [4, 5, 6] }
      original_column_node_ids := none
      original_row_node_ids := none
      original_edge_ids := some [7, 8, 9] } [0, 2] (by decide)
  exact h

/-- C4: the reverse-id resolver returns source and destination id sequences
of length equal to the edge count, in edge order; the source id is
`row_map[indices[i]]` (or `indices[i]` without a map), and the destination
id of an edge in column `j` is `column_map[j]` (or `j` itself).  It is a
pure function of its inputs. -/
theorem reverse_resolver_correct (c : CSCFormatBase)
    (row_map col_map : Option (List Nat)) (hc : c.valid) :
    (to_reverse_ids c row_map col_map).1.length = c.indices.length ∧
    (to_reverse_ids c row_map col_map).2.length = c.indices.length ∧
    (∀ i, i < c.indices.length →
      (to_reverse_ids c row_map col_map).1.getD i 0 =
        (match row_map with
         | some m => m.getD (c.indices.getD i 0) 0
         | none => c.indices.getD i 0)) ∧
    (∀ j i, j + 1 < c.indptr.length → c.indptr.getD j 0 ≤ i →
      i < c.indptr.getD (j + 1) 0 →
      (to_reverse_ids c row_map col_map).2.getD i 0 = col_id col_map j) := by
  obtain ⟨indptr, indices⟩ := c
  obtain ⟨hhead, hlast, hsort⟩ := hc
  simp only at hhead hlast hsort
  cases indptr with
  | nil => simp at hhead
  | cons a rest =>
      have ha : a = 0 := by
        rw [List.head?_cons] at hhead
        injection hhead
      subst ha
      refine ⟨?_, ?_, ?_, ?_⟩
      · show (match row_map with
          | some ids => index_select_list ids indices
          | none => indices).length = indices.length
        cases row_map with
        | some m => exact index_select_list_length m indices
        | none => rfl
      · show (expand_indptr col_map 0 (0 :: rest)).length = indices.length
        rw [expand_indptr_length col_map rest 0 0 hsort]
        rw [List.getLastD_eq_getLast?, hlast]
        rfl
      · intro i hi
        cases row_map with
        | some m =>
            show (index_select_list m indices).getD i 0 = m.getD (indices.getD i 0) 0
            exact index_select_list_getD m indices i hi
        | none => rfl
      · intro j i hj hlo hhi
        have h := expand_indptr_getD col_map rest 0 0 j i hsort hj hlo hhi
        simpa using h

/-- C4 witness: the docstring example resolved to original ids. -/
theorem reverse_resolver_correct_witness :
    (to_reverse_ids { indptr := [0, 1, 2, 3], indices := [0, 1, 2] }
        (some [13, 14, 15]) (some [10, 11, 12])).1.length = 3 ∧
    (to_reverse_ids { indptr := [0, 1, 2, 3], indices := [0, 1, 2] }
        (some [13, 14, 15]) (some [10, 11, 12])).2.getD 1 0 =
      col_id (some [10, 11, 12]) 1 := by
  have h := reverse_resolver_correct
    { indptr := [0, 1, 2, 3], indices := [0, 1, 2] }
    (some [13, 14, 15]) (some [10, 11, 12]) (by decide)
  exact ⟨h.1, h.2.2.2 1 1 (by decide) (by decide) (by decide)⟩

theorem to_reverse_ids_fst_length (c : CSCFormatBase)
    (rm cm : Option (List Nat)) :
    (to_reverse_ids c rm cm).1.length = c.indices.length := by
  cases rm with
  | some m => exact index_select_list_length m c.indices
  | none => rfl

theorem to_reverse_ids_snd_length (c : CSCFormatBase)
    (rm cm : Option (List Nat)) (hc : c.valid) :
    (to_reverse_ids c rm cm).2.length = c.indices.length := by
  obtain ⟨hhead, hlast, hsort⟩ := hc
  show (expand_indptr cm 0 c.indptr).length = c.indices.length
  cases hip : c.indptr with
  | nil =>
      rw [hip] at hhead
      simp at hhead
  | cons a rest =>
      rw [hip] at hhead hlast hsort
      have ha : a = 0 := by
        rw [List.head?_cons] at hhead
        injection hhead
      subst ha
      rw [expand_indptr_length cm rest 0 0 hsort,
        List.getLastD_eq_getLast?, hlast]
      rfl

theorem edge_keys_length (g : SampledSubgraphHomo)
    (hc : g.sampled_csc.valid) :
    (edge_keys g).length = g.sampled_csc.indices.length := by
  unfold edge_keys
  rw [List.length_map, List.length_zip,
    to_reverse_ids_fst_length g.sampled_csc g.original_row_node_ids
      g.original_column_node_ids,
    to_reverse_ids_snd_length g.sampled_csc g.original_row_node_ids
      g.original_column_node_ids hc]
  omega

/-- C2: slicing by an in-range ascending retain sequence yields a valid CSC
structure with the same column count as the input, and hence the sampled
CSC of every homogeneous `exclude_edges` result on a valid subgraph is a
valid CSC with unchanged column count (columns that lose all edges become
empty but are not removed). -/
theorem slicer_preserves_validity :
    (∀ (c : CSCFormatBase) (idx : List Nat), c.valid →
      idx.Sorted (· ≤ ·) → (∀ i ∈ idx, i < c.indices.length) →
      (index_select_csc c (some idx)).valid ∧
      (index_select_csc c (some idx)).indptr.length = c.indptr.length) ∧
    (∀ (g : SampledSubgraphHomo) (es ed : List Nat), g.sampled_csc.valid →
      ∃ r, exclude_edges (SampledSubgraph.homo g)
          (EdgesToExclude.homo (HomoEdges.pair es ed)) true =
          Except.ok (SampledSubgraph.homo r) ∧
        r.sampled_csc.valid ∧
        r.sampled_csc.indptr.length = g.sampled_csc.indptr.length) := by
  have part1 : ∀ (c : CSCFormatBase) (idx : List Nat), c.valid →
      idx.Sorted (· ≤ ·) → (∀ i ∈ idx, i < c.indices.length) →
      (index_select_csc c (some idx)).valid ∧
      (index_select_csc c (some idx)).indptr.length = c.indptr.length := by
    intro c idx hc hsort hbound
    obtain ⟨hhead, hlast, hsorted⟩ := hc
    have heq : searchsorted idx c.indptr =
        c.indptr.map (fun b => idx.countP (fun x => x < b)) := by
      unfold searchsorted
      exact List.map_congr_left
        (fun b _ => searchsorted_one_sorted idx hsort b)
    constructor
    · refine ⟨?_, ?_, ?_⟩
      · show (searchsorted idx c.indptr).head? = some 0
        rw [heq, List.head?_map, hhead]
        have h0 : idx.countP (fun x => x < 0) = 0 := by
          rw [List.countP_eq_zero]
          intro x _
          simp
        simp [h0]
      · show (searchsorted idx c.indptr).getLast? =
          some (index_select_list c.indices idx).length
        rw [heq, List.getLast?_map, hlast, index_select_list_length]
        have hfull : idx.countP (fun x => x < c.indices.length) =
            idx.length := by
          rw [List.countP_eq_length]
          intro a ha
          simpa using hbound a ha
        simp [hfull]
      · show (searchsorted idx c.indptr).Sorted (· ≤ ·)
        rw [heq]
        rw [List.Sorted, List.pairwise_map]
        refine hsorted.imp ?_
        intro a b hab
        exact List.countP_mono_left (fun x _ hx => by
          simp only [decide_eq_true_eq] at hx ⊢
          omega)
    · show (searchsorted idx c.indptr).length = c.indptr.length
      rw [heq, List.length_map]
  refine ⟨part1, ?_⟩
  intro g es ed hc
  refine ⟨_, rfl, ?_⟩
  have hmlen : ((isin (edge_keys g)
      ((es.zip ed).map (fun p => key64 p.1 p.2))).map (fun b => !b)).length =
      g.sampled_csc.indices.length := by
    rw [mask_length, edge_keys_length g hc]
  have hsorted_le : (nonzero ((isin (edge_keys g)
      ((es.zip ed).map (fun p => key64 p.1 p.2))).map
        (fun b => !b))).Sorted (· ≤ ·) :=
    (nonzero_sorted _).imp (fun h => Nat.le_of_lt h)
  have hbound : ∀ i ∈ nonzero ((isin (edge_keys g)
      ((es.zip ed).map (fun p => key64 p.1 p.2))).map (fun b => !b)),
      i < g.sampled_csc.indices.length := by
    intro i hi
    have := (mem_nonzero.mp hi).1
    rw [hmlen] at this
    exact this
  have h := part1 g.sampled_csc _ ⟨hc.1, hc.2.1, hc.2.2⟩ hsorted_le hbound
  exact h

/-- C2 witness: slicing the docstring example keeps the CSC valid. -/
theorem slicer_preserves_validity_witness :
    ((index_select_csc { indptr := [0, 1, 2, 3], indices := [0, 1, 2] }
        (some [0])).valid ∧
      (index_select_csc { indptr := [0, 1, 2, 3], indices := [0, 1, 2] }
        (some [0])).indptr.length = 4) ∧
    (∃ r, exclude_edges (SampledSubgraph.homo
          { sampled_csc := { indptr := [0, 1, 2], indices := [3, 4] }
            original_column_node_ids := none
            original_row_node_ids := none
            original_edge_ids := none })
        (EdgesToExclude.homo (HomoEdges.pair [3] [0])) true =
        Except.ok (SampledSubgraph.homo r) ∧
      r.sampled_csc.valid ∧
      r.sampled_csc.indptr.length = 3) :=
  ⟨slicer_preserves_validity.1
      { indptr := [0, 1, 2, 3], indices := [0, 1, 2] } [0]
      (by decide) (by decide) (by decide),
    slicer_preserves_validity.2
      { sampled_csc := { indptr := [0, 1, 2], indices := [3, 4] }
        original_column_node_ids := none
        original_row_node_ids := none
        original_edge_ids := none } [3] [0] (by decide)⟩

theorem nonzero_mask_all (val vex : List Nat)
    (h : ∀ k ∈ val, vex.contains k = false) :
    nonzero ((isin val vex).map (fun b => !b)) = List.range val.length := by
  have hlen := mask_length val vex
  rw [← hlen]
  apply nonzero_all_true
  intro i hi
  rw [hlen] at hi
  rw [mask_getD _ _ _ hi, h _ (getD_mem_of_lt val i hi)]
  rfl

theorem slice_range_identity (g : SampledSubgraphHomo) (hg : g.valid) :
    slice_subgraph_homo g
      (some (List.range g.sampled_csc.indices.length)) = g := by
  obtain ⟨⟨indptr, indices⟩, ocol, orow, oeids⟩ := g
  obtain ⟨⟨hhead, hlast, hsort⟩, heids⟩ := hg
  simp only at hhead hlast hsort heids
  have h1 : searchsorted (List.range indices.length) indptr = indptr := by
    unfold searchsorted
    have hone : ∀ b ∈ indptr,
        searchsorted_one (List.range indices.length) b = b := by
      intro b hb
      exact searchsorted_one_range
        (sorted_mem_le_getLast indptr indices.length hsort hlast b hb)
    calc indptr.map (searchsorted_one (List.range indices.length)) =
        indptr.map id := List.map_congr_left (fun b hb => hone b hb)
      _ = indptr := List.map_id indptr
  have h2 : index_select_list indices (List.range indices.length) = indices :=
    index_select_list_range indices
  show slice_subgraph_homo
      ⟨⟨indptr, indices⟩, ocol, orow, oeids⟩
      (some (List.range indices.length)) = _
  unfold slice_subgraph_homo index_select_csc
  simp only [h1, h2]
  cases oeids with
  | none => rfl
  | some ids =>
      have h3 : index_select_ids ids
          (some (List.range indices.length)) = ids := by
        show index_select_list ids (List.range indices.length) = ids
        rw [← heids]
        exact index_select_list_range ids
      simp [h3]

theorem alist_get_none_forall {α : Type} (l : List (EType × α)) (k : EType)
    (h : alist_get l k = none) : ∀ p ∈ l, p.1 ≠ k := by
  induction l with
  | nil => simp
  | cons hd tl ih =>
      obtain ⟨k0, v0⟩ := hd
      unfold alist_get at h
      by_cases hk : k0 = k
      · rw [if_pos hk] at h
        exact absurd h (by simp)
      · rw [if_neg hk] at h
        intro p hp
        rcases List.mem_cons.mp hp with rfl | hp2
        · exact hk
        · exact ih h p hp2

theorem alist_get_map_none {α : Type} :
    ∀ (l : List (EType × α)) (q : EType),
      alist_get (l.map (fun p => (p.1, (none : Option (List Nat))))) q =
        (alist_get l q).map (fun _ => (none : Option (List Nat))) := by
  intro l
  induction l with
  | nil => intro q; rfl
  | cons hd tl ih =>
      intro q
      obtain ⟨k, v⟩ := hd
      rw [List.map_cons]
      unfold alist_get
      by_cases hk : k = q
      · simp only [if_pos hk]
        rfl
      · simp only [if_neg hk]
        exact ih q

theorem alist_get_ne_none_of_mem {α : Type} (l : List (EType × α))
    (p : EType × α) (hp : p ∈ l) : alist_get l p.1 ≠ none := by
  intro hnone
  exact alist_get_none_forall l p.1 hnone p hp rfl

theorem hetero_retain_index_all_missing
    (orow ocol : Option (List (String × List Nat)))
    (ed : List (EType × HomoEdges)) (a32 : Bool) :
    ∀ l : List (EType × CSCFormatBase),
      (∀ p ∈ l, alist_get ed p.1 = none) →
      hetero_retain_index orow ocol ed a32 l =
        Except.ok (l.map (fun p => (p.1, none))) := by
  intro l
  induction l with
  | nil => intro _; rfl
  | cons hd tl ih =>
      intro hmiss
      obtain ⟨etype, pair⟩ := hd
      have hent : retain_entry orow ocol ed a32 etype pair =
          Except.ok none := by
        unfold retain_entry
        rw [hmiss (etype, pair) (by simp)]
      unfold hetero_retain_index
      rw [hent, ih (fun p hp => hmiss p (List.mem_cons_of_mem _ hp))]
      rfl

theorem index_select_csc_dict_id (idx : List (EType × Option (List Nat))) :
    ∀ l : List (EType × CSCFormatBase),
      (∀ p ∈ l, alist_get idx p.1 = some none) →
      index_select_csc_dict idx l = Except.ok l := by
  intro l
  induction l with
  | nil => intro _; rfl
  | cons hd tl ih =>
      intro hall
      obtain ⟨k, v⟩ := hd
      unfold index_select_csc_dict
      rw [hall (k, v) (by simp),
        ih (fun p hp => hall p (List.mem_cons_of_mem _ hp))]
      rfl

theorem index_select_ids_dict_id (idx : List (EType × Option (List Nat))) :
    ∀ l : List (EType × List Nat),
      (∀ p ∈ l, alist_get idx p.1 = some none) →
      index_select_ids_dict idx l = Except.ok l := by
  intro l
  induction l with
  | nil => intro _; rfl
  | cons hd tl ih =>
      intro hall
      obtain ⟨k, v⟩ := hd
      unfold index_select_ids_dict
      rw [hall (k, v) (by simp),
        ih (fun p hp => hall p (List.mem_cons_of_mem _ hp))]
      rfl

theorem exclude_hetero_missing_identity (g : SampledSubgraphHetero)
    (ed : List (EType × HomoEdges))
    (hmiss : ∀ p ∈ g.sampled_csc, alist_get ed p.1 = none)
    (heidkeys : ∀ d, g.original_edge_ids = some d →
      ∀ p ∈ d, alist_get g.sampled_csc p.1 ≠ none) :
    exclude_edges (SampledSubgraph.hetero g) (EdgesToExclude.hetero ed)
      true = Except.ok (SampledSubgraph.hetero g) := by
  obtain ⟨csc, ocol, orow, oeids⟩ := g
  simp only at hmiss heidkeys
  have hidx := hetero_retain_index_all_missing orow ocol ed true csc hmiss
  have hidxlook : ∀ q : EType, alist_get csc q ≠ none →
      alist_get (csc.map (fun p => (p.1, (none : Option (List Nat))))) q = some none := by
    intro q hq
    rw [alist_get_map_none]
    cases hcq : alist_get csc q with
    | none => exact absurd hcq hq
    | some v => rfl
  have hcscid : index_select_csc_dict (csc.map (fun p => (p.1, (none : Option (List Nat))))) csc =
      Except.ok csc :=
    index_select_csc_dict_id _ csc
      (fun p hp => hidxlook p.1 (alist_get_ne_none_of_mem csc p hp))
  have heid : slice_eids (csc.map (fun p => (p.1, (none : Option (List Nat))))) oeids =
      Except.ok oeids := by
    cases oeids with
    | none => rfl
    | some d =>
        have hdid : index_select_ids_dict
            (csc.map (fun p => (p.1, (none : Option (List Nat))))) d = Except.ok d :=
          index_select_ids_dict_id _ d
            (fun p hp => hidxlook p.1 (heidkeys d rfl p hp))
        show Except.map some (index_select_ids_dict
          (csc.map (fun p => (p.1, (none : Option (List Nat))))) d) = Except.ok (some d)
        rw [hdid]
        rfl
  have hslice : slice_subgraph_hetero ⟨csc, ocol, orow, oeids⟩
      (csc.map (fun p => (p.1, (none : Option (List Nat))))) =
      Except.ok ⟨csc, ocol, orow, oeids⟩ := by
    unfold slice_subgraph_hetero
    rw [hcscid, heid]
  have hunfold : exclude_edges (SampledSubgraph.hetero
      ⟨csc, ocol, orow, oeids⟩) (EdgesToExclude.hetero ed) true =
      match hetero_retain_index orow ocol ed true csc with
      | Except.error err => Except.error err
      | Except.ok idx2 =>
          match slice_subgraph_hetero ⟨csc, ocol, orow, oeids⟩ idx2 with
          | Except.error err => Except.error err
          | Except.ok rr => Except.ok (SampledSubgraph.hetero rr) := rfl
  rw [hunfold, hidx]
  have h3 : (match slice_subgraph_hetero ⟨csc, ocol, orow, oeids⟩
      (csc.map (fun p => (p.1, (none : Option (List Nat))))) with
      | Except.error err => Except.error err
      | Except.ok rr => Except.ok (SampledSubgraph.hetero rr)) =
      Except.ok (SampledSubgraph.hetero ⟨csc, ocol, orow, oeids⟩) := by
    rw [hslice]
  exact h3

theorem exclude_homo_disjoint_identity (g : SampledSubgraphHomo)
    (hg : g.valid) (es2 ed2 : List Nat)
    (hd : ∀ k ∈ edge_keys g,
      k ∉ (es2.zip ed2).map (fun p => key64 p.1 p.2)) :
    exclude_edges (SampledSubgraph.homo g)
      (EdgesToExclude.homo (HomoEdges.pair es2 ed2)) true =
      Except.ok (SampledSubgraph.homo g) := by
  have hstep : exclude_edges (SampledSubgraph.homo g)
      (EdgesToExclude.homo (HomoEdges.pair es2 ed2)) true =
      Except.ok (SampledSubgraph.homo (slice_subgraph_homo g
        (some (nonzero ((isin (edge_keys g)
          ((es2.zip ed2).map (fun p => key64 p.1 p.2))).map
          (fun b => !b)))))) := rfl
  rw [hstep]
  have hcontains : ∀ k ∈ edge_keys g,
      ((es2.zip ed2).map (fun p => key64 p.1 p.2)).contains k = false := by
    intro k hk
    cases hc : ((es2.zip ed2).map
        (fun p => key64 p.1 p.2)).contains k with
    | false => rfl
    | true => exact absurd ((contains_iff_mem_nat _ _).mp hc) (hd k hk)
  rw [nonzero_mask_all (edge_keys g) _ hcontains,
    edge_keys_length g hg.1, slice_range_identity g hg]

/-- C5: excluding an empty edge set returns a subgraph structurally equal to
the input — same indptr, indices and edge ids per relation — on both the
homogeneous and the heterogeneous path; more generally, exclusion entries
whose keys match no sampled edge (packed endpoint keys on the homogeneous
path, relation keys absent from the subgraph on the heterogeneous path) are
silently ignored and cause no change and no error. -/
theorem empty_exclusion_identity :
    (∀ (g : SampledSubgraphHomo), g.valid → ∀ (es ed : List Nat),
      (∀ k ∈ edge_keys g, k ∉ (es.zip ed).map (fun p => key64 p.1 p.2)) →
      exclude_edges (SampledSubgraph.homo g)
        (EdgesToExclude.homo (HomoEdges.pair es ed)) true =
        Except.ok (SampledSubgraph.homo g)) ∧
    (∀ (g : SampledSubgraphHomo), g.valid →
      exclude_edges (SampledSubgraph.homo g)
        (EdgesToExclude.homo (HomoEdges.pair [] [])) true =
        Except.ok (SampledSubgraph.homo g)) ∧
    (∀ (g : SampledSubgraphHetero) (ed : List (EType × HomoEdges)),
      (∀ p ∈ g.sampled_csc, alist_get ed p.1 = none) →
      (∀ d, g.original_edge_ids = some d →
        ∀ p ∈ d, alist_get g.sampled_csc p.1 ≠ none) →
      exclude_edges (SampledSubgraph.hetero g) (EdgesToExclude.hetero ed)
        true = Except.ok (SampledSubgraph.hetero g)) ∧
    (∀ (g : SampledSubgraphHetero),
      (∀ d, g.original_edge_ids = some d →
        ∀ p ∈ d, alist_get g.sampled_csc p.1 ≠ none) →
      exclude_edges (SampledSubgraph.hetero g) (EdgesToExclude.hetero [])
        true = Except.ok (SampledSubgraph.hetero g)) :=
  ⟨fun g hg es ed hd => exclude_homo_disjoint_identity g hg es ed hd,
   fun g hg => exclude_homo_disjoint_identity g hg [] [] (by
     intro k _
     simp),
   fun g ed hmiss hkeys => exclude_hetero_missing_identity g ed hmiss hkeys,
   fun g hkeys =>
     exclude_hetero_missing_identity g [] (fun p _ => rfl) hkeys⟩

/-- C5 witness: the docstring example with a non-matching pair (999, 999)
and with an empty set is returned unchanged, and a concrete heterogeneous
subgraph is returned unchanged under an unknown-relation exclusion dict and
under the empty exclusion dict. -/
theorem empty_exclusion_identity_witness :
    exclude_edges (SampledSubgraph.homo
        { sampled_csc := { indptr := [0, 1, 2, 3], indices := [0, 1, 2] }
          original_column_node_ids := some [10, 11, 12]
          original_row_node_ids := some [13, 14, 15]
          original_edge_ids := some [19, 20, 21] })
        (EdgesToExclude.homo (HomoEdges.pair [999] [999])) true =
      Except.ok (SampledSubgraph.homo
        { sampled_csc := { indptr := [0, 1, 2, 3], indices := [0, 1, 2] }
          original_column_node_ids := some [10, 11, 12]
          original_row_node_ids := some [13, 14, 15]
          original_edge_ids := some [19, 20, 21] }) ∧
    exclude_edges (SampledSubgraph.homo
        { sampled_csc := { indptr := [0, 1, 2, 3], indices := [0, 1, 2] }
          original_column_node_ids := some [10, 11, 12]
          original_row_node_ids := some [13, 14, 15]
          original_edge_ids := some [19, 20, 21] })
        (EdgesToExclude.homo (HomoEdges.pair [] [])) true =
      Except.ok (SampledSubgraph.homo
        { sampled_csc := { indptr := [0, 1, 2, 3], indices := [0, 1, 2] }
          original_column_node_ids := some [10, 11, 12]
          original_row_node_ids := some [13, 14, 15]
          original_edge_ids := some [19, 20, 21] }) ∧
    exclude_edges (SampledSubgraph.hetero
        { sampled_csc :=
            [(⟨"A", "r", "B"⟩, { indptr := [0, 1], indices := [0] })]
          original_column_node_ids := some [("B", [10])]
          original_row_node_ids := some [("A", [13])]
          original_edge_ids := some [(⟨"A", "r", "B"⟩, [7])] })
        (EdgesToExclude.hetero
          [(⟨"X", "s", "Y"⟩, HomoEdges.pair [1] [2])]) true =
      Except.ok (SampledSubgraph.hetero
        { sampled_csc :=
            [(⟨"A", "r", "B"⟩, { indptr := [0, 1], indices := [0] })]
          original_column_node_ids := some [("B", [10])]
          original_row_node_ids := some [("A", [13])]
          original_edge_ids := some [(⟨"A", "r", "B"⟩, [7])] }) ∧
    exclude_edges (SampledSubgraph.hetero
        { sampled_csc :=
            [(⟨"A", "r", "B"⟩, { indptr := [0, 1], indices := [0] })]
          original_column_node_ids := some [("B", [10])]
          original_row_node_ids := some [("A", [13])]
          original_edge_ids := some [(⟨"A", "r", "B"⟩, [7])] })
        (EdgesToExclude.hetero []) true =
      Except.ok (SampledSubgraph.hetero
        { sampled_csc :=
            [(⟨"A", "r", "B"⟩, { indptr := [0, 1], indices := [0] })]
          original_column_node_ids := some [("B", [10])]
          original_row_node_ids := some [("A", [13])]
          original_edge_ids := some [(⟨"A", "r", "B"⟩, [7])] }) :=
  ⟨empty_exclusion_identity.1
      { sampled_csc := { indptr := [0, 1, 2, 3], indices := [0, 1, 2] }
        original_column_node_ids := some [10, 11, 12]
        original_row_node_ids := some [13, 14, 15]
        original_edge_ids := some [19, 20, 21] }
      (by decide) [999] [999] (by decide),
   empty_exclusion_identity.2.1
      { sampled_csc := { indptr := [0, 1, 2, 3], indices := [0, 1, 2] }
        original_column_node_ids := some [10, 11, 12]
        original_row_node_ids := some [13, 14, 15]
        original_edge_ids := some [19, 20, 21] }
      (by decide),
   empty_exclusion_identity.2.2.1
      { sampled_csc :=
          [(⟨"A", "r", "B"⟩, { indptr := [0, 1], indices := [0] })]
        original_column_node_ids := some [("B", [10])]
        original_row_node_ids := some [("A", [13])]
        original_edge_ids := some [(⟨"A", "r", "B"⟩, [7])] }
      [(⟨"X", "s", "Y"⟩, HomoEdges.pair [1] [2])]
      (by decide)
      (by
        intro d hd p hp
        injection hd with hd2
        subst hd2
        rw [List.mem_singleton] at hp
        subst hp
        decide),
   empty_exclusion_identity.2.2.2
      { sampled_csc :=
          [(⟨"A", "r", "B"⟩, { indptr := [0, 1], indices := [0] })]
        original_column_node_ids := some [("B", [10])]
        original_row_node_ids := some [("A", [13])]
        original_edge_ids := some [(⟨"A", "r", "B"⟩, [7])] }
      (by
        intro d hd p hp
        injection hd with hd2
        subst hd2
        rw [List.mem_singleton] at hp
        subst hp
        decide)⟩

theorem retain_entry_extra_key
    (orow ocol : Option (List (String × List Nat)))
    (ed : List (EType × HomoEdges)) (k : EType) (e0 : HomoEdges)
    (a32 : Bool) (etype : EType) (pair : CSCFormatBase) (hne : etype ≠ k) :
    retain_entry orow ocol ((k, e0) :: ed) a32 etype pair =
      retain_entry orow ocol ed a32 etype pair := by
  have hget : alist_get ((k, e0) :: ed) etype = alist_get ed etype := by
    show (if k = etype then some e0 else alist_get ed etype) =
      alist_get ed etype
    rw [if_neg (fun hh => hne hh.symm)]
  unfold retain_entry
  rw [hget]

theorem hetero_retain_index_extra_key
    (orow ocol : Option (List (String × List Nat)))
    (ed : List (EType × HomoEdges)) (k : EType) (e0 : HomoEdges)
    (a32 : Bool) :
    ∀ l : List (EType × CSCFormatBase), (∀ p ∈ l, p.1 ≠ k) →
      hetero_retain_index orow ocol ((k, e0) :: ed) a32 l =
        hetero_retain_index orow ocol ed a32 l := by
  intro l
  induction l with
  | nil => intro _; rfl
  | cons hd tl ih =>
      intro hne
      obtain ⟨etype, pair⟩ := hd
      have hek : etype ≠ k := hne (etype, pair) (by simp)
      have htl := ih (fun p hp => hne p (List.mem_cons_of_mem _ hp))
      unfold hetero_retain_index
      rw [retain_entry_extra_key orow ocol ed k e0 a32 etype pair hek, htl]

/-- C9: a relation key present in the exclusion set but absent from the
heterogeneous subgraph is silently ignored: `exclude_edges` iterates only
over the subgraph's own relation keys, so the extra key raises no error and
the result is identical to excluding without it. -/
theorem unknown_relation_key_ignored (g : SampledSubgraphHetero)
    (ed : List (EType × HomoEdges)) (k : EType) (e0 : HomoEdges)
    (hk : alist_get g.sampled_csc k = none) :
    exclude_edges (SampledSubgraph.hetero g)
        (EdgesToExclude.hetero ((k, e0) :: ed)) true =
      exclude_edges (SampledSubgraph.hetero g)
        (EdgesToExclude.hetero ed) true := by
  have h1 : exclude_edges (SampledSubgraph.hetero g)
      (EdgesToExclude.hetero ((k, e0) :: ed)) true =
      match hetero_retain_index g.original_row_node_ids
        g.original_column_node_ids ((k, e0) :: ed) true g.sampled_csc with
      | Except.error err => Except.error err
      | Except.ok idx =>
          match slice_subgraph_hetero g idx with
          | Except.error err => Except.error err
          | Except.ok r => Except.ok (SampledSubgraph.hetero r) := rfl
  have h2 : exclude_edges (SampledSubgraph.hetero g)
      (EdgesToExclude.hetero ed) true =
      match hetero_retain_index g.original_row_node_ids
        g.original_column_node_ids ed true g.sampled_csc with
      | Except.error err => Except.error err
      | Except.ok idx =>
          match slice_subgraph_hetero g idx with
          | Except.error err => Except.error err
          | Except.ok r => Except.ok (SampledSubgraph.hetero r) := rfl
  rw [h1, h2, hetero_retain_index_extra_key g.original_row_node_ids
    g.original_column_node_ids ed k e0 true g.sampled_csc
    (alist_get_none_forall g.sampled_csc k hk)]

/-- C9 witness: adding an unknown relation key to the exclusion set leaves
the result unchanged on a concrete heterogeneous subgraph. -/
theorem unknown_relation_key_ignored_witness :
    exclude_edges (SampledSubgraph.hetero
        { sampled_csc :=
            [(⟨"A", "r", "B"⟩, { indptr := [0, 1], indices := [0] })]
          original_column_node_ids := some [("B", [10])]
          original_row_node_ids := some [("A", [13])]
          original_edge_ids := some [(⟨"A", "r", "B"⟩, [7])] })
        (EdgesToExclude.hetero
          [(⟨"X", "s", "Y"⟩, HomoEdges.pair [1] [2])]) true =
      exclude_edges (SampledSubgraph.hetero
        { sampled_csc :=
            [(⟨"A", "r", "B"⟩, { indptr := [0, 1], indices := [0] })]
          original_column_node_ids := some [("B", [10])]
          original_row_node_ids := some [("A", [13])]
          original_edge_ids := some [(⟨"A", "r", "B"⟩, [7])] })
        (EdgesToExclude.hetero []) true :=
  unknown_relation_key_ignored
    { sampled_csc :=
        [(⟨"A", "r", "B"⟩, { indptr := [0, 1], indices := [0] })]
      original_column_node_ids := some [("B", [10])]
      original_row_node_ids := some [("A", [13])]
      original_edge_ids := some [(⟨"A", "r", "B"⟩, [7])] }
    [] ⟨"X", "s", "Y"⟩ (HomoEdges.pair [1] [2]) (by decide)

theorem hetero_retain_index_lookup
    (orow ocol : Option (List (String × List Nat)))
    (ed : List (EType × HomoEdges)) (a32 : Bool) :
    ∀ (l : List (EType × CSCFormatBase))
      (idx : List (EType × Option (List Nat))),
      hetero_retain_index orow ocol ed a32 l = Except.ok idx →
      ∀ q : EType,
        (alist_get l q = none → alist_get idx q = none) ∧
        (∀ v, alist_get l q = some v → alist_get ed q = none →
          alist_get idx q = some none) := by
  intro l
  induction l with
  | nil =>
      intro idx h q
      injection h with h2
      subst h2
      refine ⟨fun _ => rfl, fun v hv _ => ?_⟩
      simp [alist_get] at hv
  | cons hd tl ih =>
      intro idx h q
      obtain ⟨etype, pair⟩ := hd
      unfold hetero_retain_index at h
      cases hent : retain_entry orow ocol ed a32 etype pair with
      | error err =>
          rw [hent] at h
          exact absurd h (by simp)
      | ok ent =>
          rw [hent] at h
          cases hres : hetero_retain_index orow ocol ed a32 tl with
          | error err =>
              rw [hres] at h
              exact absurd h (by simp)
          | ok tail =>
              rw [hres] at h
              injection h with h2
              subst h2
              constructor
              · intro hnone
                unfold alist_get at hnone ⊢
                by_cases he : etype = q
                · rw [if_pos he] at hnone
                  exact absurd hnone (by simp)
                · rw [if_neg he] at hnone ⊢
                  exact (ih tail hres q).1 hnone
              · intro v hv hed
                unfold alist_get at hv ⊢
                by_cases he : etype = q
                · rw [if_pos he]
                  have hnone : retain_entry orow ocol ed a32 etype pair =
                      Except.ok none := by
                    unfold retain_entry
                    rw [he, hed]
                  rw [hnone] at hent
                  injection hent with h3
                  rw [h3]
                · rw [if_neg he] at hv ⊢
                  exact (ih tail hres q).2 v hv hed

theorem index_select_csc_dict_preserve
    (index : List (EType × Option (List Nat))) :
    ∀ (l out : List (EType × CSCFormatBase)),
      index_select_csc_dict index l = Except.ok out →
      ∀ q : EType, (alist_get index q = some none ∨ alist_get l q = none) →
        alist_get out q = alist_get l q := by
  intro l
  induction l with
  | nil =>
      intro out h q _
      injection h with h2
      subst h2
      rfl
  | cons hd tl ih =>
      intro out h q hq
      obtain ⟨k, v⟩ := hd
      unfold index_select_csc_dict at h
      cases hal : alist_get index k with
      | none =>
          rw [hal] at h
          exact absurd h (by simp)
      | some i =>
          rw [hal] at h
          cases hres : index_select_csc_dict index tl with
          | error err =>
              rw [hres] at h
              exact absurd h (by simp)
          | ok tail =>
              rw [hres] at h
              injection h with h2
              subst h2
              unfold alist_get
              by_cases hk : k = q
              · simp only [if_pos hk]
                rcases hq with hidx | hnone
                · rw [hk] at hal
                  rw [hal] at hidx
                  injection hidx with h3
                  rw [h3]
                  rfl
                · unfold alist_get at hnone
                  rw [if_pos hk] at hnone
                  exact absurd hnone (by simp)
              · simp only [if_neg hk]
                refine ih tail hres q (hq.imp id (fun hnone => ?_))
                unfold alist_get at hnone
                rwa [if_neg hk] at hnone

theorem index_select_ids_dict_preserve
    (index : List (EType × Option (List Nat))) :
    ∀ (l out : List (EType × List Nat)),
      index_select_ids_dict index l = Except.ok out →
      ∀ q : EType, (alist_get index q = some none ∨ alist_get l q = none) →
        alist_get out q = alist_get l q := by
  intro l
  induction l with
  | nil =>
      intro out h q _
      injection h with h2
      subst h2
      rfl
  | cons hd tl ih =>
      intro out h q hq
      obtain ⟨k, v⟩ := hd
      unfold index_select_ids_dict at h
      cases hal : alist_get index k with
      | none =>
          rw [hal] at h
          exact absurd h (by simp)
      | some i =>
          rw [hal] at h
          cases hres : index_select_ids_dict index tl with
          | error err =>
              rw [hres] at h
              exact absurd h (by simp)
          | ok tail =>
              rw [hres] at h
              injection h with h2
              subst h2
              unfold alist_get
              by_cases hk : k = q
              · simp only [if_pos hk]
                rcases hq with hidx | hnone
                · rw [hk] at hal
                  rw [hal] at hidx
                  injection hidx with h3
                  rw [h3]
                  rfl
                · unfold alist_get at hnone
                  rw [if_pos hk] at hnone
                  exact absurd hnone (by simp)
              · simp only [if_neg hk]
                refine ih tail hres q (hq.imp id (fun hnone => ?_))
                unfold alist_get at hnone
                rwa [if_neg hk] at hnone

theorem index_select_ids_dict_keys
    (index : List (EType × Option (List Nat))) :
    ∀ (l out : List (EType × List Nat)),
      index_select_ids_dict index l = Except.ok out →
      ∀ q : EType, alist_get index q = none → alist_get l q = none := by
  intro l
  induction l with
  | nil => intro out _ q _; rfl
  | cons hd tl ih =>
      intro out h q hqnone
      obtain ⟨k, v⟩ := hd
      unfold index_select_ids_dict at h
      cases hal : alist_get index k with
      | none =>
          rw [hal] at h
          exact absurd h (by simp)
      | some i =>
          rw [hal] at h
          cases hres : index_select_ids_dict index tl with
          | error err =>
              rw [hres] at h
              exact absurd h (by simp)
          | ok tail =>
              unfold alist_get
              by_cases hk : k = q
              · rw [hk] at hal
                rw [hal] at hqnone
                exact absurd hqnone (by simp)
              · rw [if_neg hk]
                exact ih tail hres q hqnone

theorem exclude_edges_homo_slice_form (sg : SampledSubgraphHomo)
    (e : HomoEdges) :
    ∃ idx, exclude_edges (SampledSubgraph.homo sg) (EdgesToExclude.homo e)
      true = Except.ok (SampledSubgraph.homo
        (slice_subgraph_homo sg (some idx))) := by
  cases e with
  | pair s d => exact ⟨_, rfl⟩
  | table rows => exact ⟨_, rfl⟩

/-- C6: `exclude_edges` changes only the sampled CSC structures and edge-id
arrays of the relations targeted by the exclusion set: the original row and
column node-id maps are returned untouched (homogeneous and heterogeneous
alike), and in a heterogeneous subgraph every relation absent from the
exclusion set keeps its CSC structure and edge ids unchanged. -/
theorem exclusion_frame_effect :
    (∀ (g : SampledSubgraphHomo) (e : HomoEdges) (r : SampledSubgraphHomo),
      exclude_edges (SampledSubgraph.homo g) (EdgesToExclude.homo e) true =
          Except.ok (SampledSubgraph.homo r) →
        r.original_row_node_ids = g.original_row_node_ids ∧
        r.original_column_node_ids = g.original_column_node_ids) ∧
    (∀ (g : SampledSubgraphHetero) (ed : List (EType × HomoEdges))
        (r : SampledSubgraphHetero),
      exclude_edges (SampledSubgraph.hetero g)
          (EdgesToExclude.hetero ed) true =
          Except.ok (SampledSubgraph.hetero r) →
        r.original_row_node_ids = g.original_row_node_ids ∧
        r.original_column_node_ids = g.original_column_node_ids ∧
        ∀ q : EType, alist_get ed q = none →
          alist_get r.sampled_csc q = alist_get g.sampled_csc q ∧
          ∀ d d2, g.original_edge_ids = some d →
            r.original_edge_ids = some d2 →
            alist_get d2 q = alist_get d q) := by
  constructor
  · intro g e r h
    obtain ⟨idx, hidx⟩ := exclude_edges_homo_slice_form g e
    rw [hidx] at h
    injection h with h2
    injection h2 with h3
    rw [← h3]
    exact ⟨rfl, rfl⟩
  · intro g ed r h
    obtain ⟨idx, hidx⟩ := hetero_retain_index_true_ok g.original_row_node_ids
      g.original_column_node_ids ed g.sampled_csc
    have hunfold : exclude_edges (SampledSubgraph.hetero g)
        (EdgesToExclude.hetero ed) true =
        match hetero_retain_index g.original_row_node_ids
          g.original_column_node_ids ed true g.sampled_csc with
        | Except.error err => Except.error err
        | Except.ok idx2 =>
            match slice_subgraph_hetero g idx2 with
            | Except.error err => Except.error err
            | Except.ok rr =>
                Except.ok (SampledSubgraph.hetero rr) := rfl
    rw [hunfold, hidx] at h
    have h3 : (match slice_subgraph_hetero g idx with
        | Except.error err => Except.error err
        | Except.ok rr => Except.ok (SampledSubgraph.hetero rr)) =
        Except.ok (SampledSubgraph.hetero r) := h
    cases hslice : slice_subgraph_hetero g idx with
    | error err =>
        rw [hslice] at h3
        exact absurd h3 (by simp)
    | ok rr =>
        rw [hslice] at h3
        injection h3 with h4
        injection h4 with h5
        subst h5
        cases hcsc : index_select_csc_dict idx g.sampled_csc with
        | error err =>
            unfold slice_subgraph_hetero at hslice
            rw [hcsc] at hslice
            exact absurd hslice (by simp)
        | ok csc2 =>
            unfold slice_subgraph_hetero at hslice
            rw [hcsc] at hslice
            cases heids : slice_eids idx g.original_edge_ids with
            | error err =>
                rw [heids] at hslice
                exact absurd hslice (by simp)
            | ok eids2 =>
                rw [heids] at hslice
                have hslice2 : Except.ok (SampledSubgraphHetero.mk csc2
                    g.original_column_node_ids g.original_row_node_ids
                    eids2) = Except.ok rr := hslice
                injection hslice2 with h6
                subst h6
                refine ⟨rfl, rfl, ?_⟩
                intro q hq
                have hlook := hetero_retain_index_lookup
                  g.original_row_node_ids g.original_column_node_ids ed true
                  g.sampled_csc idx hidx q
                constructor
                · show alist_get csc2 q = alist_get g.sampled_csc q
                  cases hcq : alist_get g.sampled_csc q with
                  | none =>
                      rw [← hcq]
                      exact index_select_csc_dict_preserve idx
                        g.sampled_csc csc2 hcsc q (Or.inr hcq)
                  | some v =>
                      rw [← hcq]
                      exact index_select_csc_dict_preserve idx
                        g.sampled_csc csc2 hcsc q
                        (Or.inl (hlook.2 v hcq hq))
                · intro d d2 hd hd2
                  rw [hd] at heids
                  have heids2 : Except.map some
                      (index_select_ids_dict idx d) = Except.ok eids2 := heids
                  cases hids : index_select_ids_dict idx d with
                  | error err =>
                      rw [hids] at heids2
                      exact absurd heids2 (by simp [Except.map])
                  | ok dout =>
                      rw [hids] at heids2
                      have heids3 : Except.ok (some dout) =
                          Except.ok eids2 := heids2
                      injection heids3 with h7
                      have hd2b : eids2 = some d2 := hd2
                      have hdout : dout = d2 := by
                        rw [← h7] at hd2b
                        injection hd2b
                      subst hdout
                      cases hcq : alist_get g.sampled_csc q with
                      | none =>
                          have hidxq := hlook.1 hcq
                          have hdq : alist_get d q = none :=
                            index_select_ids_dict_keys idx d dout hids q hidxq
                          rw [index_select_ids_dict_preserve idx d dout hids q
                            (Or.inr hdq)]
                      | some v =>
                          rw [index_select_ids_dict_preserve idx d dout hids q
                            (Or.inl (hlook.2 v hcq hq))]

/-- C6 witness: on concrete homogeneous and heterogeneous subgraphs the
node-id maps are untouched and an untargeted relation passes through. -/
theorem exclusion_frame_effect_witness :
    ((SampledSubgraphHomo.mk
        { indptr := [0, 1], indices := [0] }
        (some [10]) (some [13]) (some [19])).original_row_node_ids =
      (SampledSubgraphHomo.mk
        { indptr := [0, 1], indices := [0] }
        (some [10]) (some [13]) (some [19])).original_row_node_ids ∧
     (SampledSubgraphHomo.mk
        { indptr := [0, 1], indices := [0] }
        (some [10]) (some [13]) (some [19])).original_column_node_ids =
      (SampledSubgraphHomo.mk
        { indptr := [0, 1], indices := [0] }
        (some [10]) (some [13]) (some [19])).original_column_node_ids) ∧
    (alist_get [((⟨"A", "r", "B"⟩ : EType),
        ({ indptr := [0, 1], indices := [0] } : CSCFormatBase))]
        ⟨"A", "r", "B"⟩ =
      alist_get [((⟨"A", "r", "B"⟩ : EType),
        ({ indptr := [0, 1], indices := [0] } : CSCFormatBase))]
        ⟨"A", "r", "B"⟩ ∧
     alist_get [((⟨"A", "r", "B"⟩ : EType), [(7 : Nat)])] ⟨"A", "r", "B"⟩ =
      alist_get [((⟨"A", "r", "B"⟩ : EType), [(7 : Nat)])] ⟨"A", "r", "B"⟩) :=
  ⟨exclusion_frame_effect.1
      (SampledSubgraphHomo.mk { indptr := [0, 1], indices := [0] }
        (some [10]) (some [13]) (some [19]))
      (HomoEdges.pair [] [])
      (SampledSubgraphHomo.mk { indptr := [0, 1], indices := [0] }
        (some [10]) (some [13]) (some [19])) rfl,
    ⟨((exclusion_frame_effect.2
        (SampledSubgraphHetero.mk
          [(⟨"A", "r", "B"⟩, { indptr := [0, 1], indices := [0] })]
          (some [("B", [10])]) (some [("A", [13])])
          (some [(⟨"A", "r", "B"⟩, [7])]))
        []
        (SampledSubgraphHetero.mk
          [(⟨"A", "r", "B"⟩, { indptr := [0, 1], indices := [0] })]
          (some [("B", [10])]) (some [("A", [13])])
          (some [(⟨"A", "r", "B"⟩, [7])])) rfl).2.2
        ⟨"A", "r", "B"⟩ rfl).1,
      ((exclusion_frame_effect.2
        (SampledSubgraphHetero.mk
          [(⟨"A", "r", "B"⟩, { indptr := [0, 1], indices := [0] })]
          (some [("B", [10])]) (some [("A", [13])])
          (some [(⟨"A", "r", "B"⟩, [7])]))
        []
        (SampledSubgraphHetero.mk
          [(⟨"A", "r", "B"⟩, { indptr := [0, 1], indices := [0] })]
          (some [("B", [10])]) (some [("A", [13])])
          (some [(⟨"A", "r", "B"⟩, [7])])) rfl).2.2
        ⟨"A", "r", "B"⟩ rfl).2
        [(⟨"A", "r", "B"⟩, [7])] [(⟨"A", "r", "B"⟩, [7])] rfl rfl⟩⟩


end DGLGraphbolt
